import Mathlib

/-!
Verification of the vision_aid alert-dispatch core against its specification.

The Python modules `utils.py`, `queues.py`, `audio.py`, `voice.py`,
`detection.py` and `main.py` are shallowly embedded below: times and
distances are rationals, dictionaries keyed by strings are total functions
with the `.get(key, 0.0)` default built in (or association lists where the
code iterates over keys), and Python exceptions are explicit `Bool`/`Except`
results.
-/

/-- Dictionary write `d[k] = v` for a map represented as a total function. -/
def updF (f : String → ℚ) (k : String) (v : ℚ) : String → ℚ :=
  fun k' => if k' = k then v else f k'

/-! ## utils.Throttle -/

/-- State of `utils.Throttle`: the `period` argument and the `_last` dict
(read through `self._last.get(key, 0.0)`, so it is modelled as a total
function defaulting to `0`). -/
structure Throttle where
  period : ℚ
  last : String → ℚ

/-- `utils.Throttle.allow`: `if now - last >= self.period` record `now`
under `key` and return `True`, else return `False` without mutation.
`now` is the `time.time()` reading taken at the start of the call. -/
def Throttle.allow (t : Throttle) (key : String) (now : ℚ) : Bool × Throttle :=
  if now - t.last key ≥ t.period then
    (true, { t with last := updF t.last key now })
  else
    (false, t)

/-! ## queues.PriorityMsgQueue -/

/-- `queues.MAX_AUDIO_QUEUE_SIZE = 20`. -/
def MAX_AUDIO_QUEUE_SIZE : ℕ := 20

/-- A heap entry `(-(priority or 0), counter, message)` as built by
`PriorityMsgQueue.put`. -/
abbrev QEntry : Type := ℤ × ℕ × String

/-- State of `queues.PriorityMsgQueue`: the multiset of entries currently in
the underlying `queue.PriorityQueue` (kept as a list in arrival order), the
monotone tie-break `_counter`, and `maxsize`. -/
structure PriorityMsgQueue where
  entries : List QEntry
  counter : ℕ
  maxsize : ℕ
deriving DecidableEq, Repr

/-- A fresh `PriorityMsgQueue()` (default `maxsize=MAX_AUDIO_QUEUE_SIZE`). -/
def PriorityMsgQueue.empty : PriorityMsgQueue :=
  { entries := [], counter := 0, maxsize := MAX_AUDIO_QUEUE_SIZE }

/-- `queues.PriorityMsgQueue.put`: build `(-(priority or 0), counter, message)`,
increment `_counter` (this happens under the lock before the non-blocking
insert), then insert; a full underlying queue raises `Full`, reported here as
a `false` first component with the entry not inserted.  `priority or 0`
equals `priority` on integers, so it is written as `-priority`. -/
def PriorityMsgQueue.put (q : PriorityMsgQueue) (message : String) (priority : ℤ) :
    Bool × PriorityMsgQueue :=
  let item : QEntry := (-priority, q.counter, message)
  if q.maxsize ≤ q.entries.length then
    (false, { q with counter := q.counter + 1 })
  else
    (true, { q with entries := q.entries ++ [item], counter := q.counter + 1 })

/-- Lexicographic order on heap entries, exactly Python's tuple comparison
used by `queue.PriorityQueue` (`heapq` pops the smallest tuple). -/
def qentryLe (a b : QEntry) : Prop :=
  a.1 < b.1 ∨ (a.1 = b.1 ∧ (a.2.1 < b.2.1 ∨ (a.2.1 = b.2.1 ∧ a.2.2 ≤ b.2.2)))

instance : DecidableRel qentryLe := by
  intro a b
  unfold qentryLe
  infer_instance

/-- Strict version of the entry order. -/
def qentryLt (a b : QEntry) : Prop := qentryLe a b ∧ a ≠ b

/-- The smallest entry among `e :: l` in the `qentryLe` order — the element
`heapq` pops next. -/
def qentryMin (e : QEntry) (l : List QEntry) : QEntry :=
  match l with
  | [] => e
  | f :: fs => qentryMin (if qentryLe f e then f else e) fs

/-- Remove the first occurrence of `a` from `l` (the heap pop, on the
multiset view of the heap's contents). -/
def eraseQ : List QEntry → QEntry → List QEntry
  | [], _ => []
  | x :: xs, a => if x = a then xs else x :: eraseQ xs a

/-- `queues.PriorityMsgQueue.get`: pop the smallest entry and return its
message; on an empty queue the timeout expires and `queue.Empty` is
re-raised (`except Empty: raise`), modelled as `Except.error`. -/
def PriorityMsgQueue.get (q : PriorityMsgQueue) :
    Except Unit (String × PriorityMsgQueue) :=
  match q.entries with
  | [] => Except.error ()
  | e :: es =>
    let m := qentryMin e es
    Except.ok (m.2.2, { q with entries := eraseQ (e :: es) m })

/-- One iteration of the body of `audio.audio_thread_func`: try to `get`
with a timeout; `except Exception: continue` turns a raised `Empty` into a
skipped cycle with no message spoken. -/
def audio_thread_step (q : PriorityMsgQueue) : Option String × PriorityMsgQueue :=
  match q.get with
  | Except.error _ => (none, q)
  | Except.ok (msg, q1) => (some msg, q1)

/-- Entries of the queue in pop order, with explicit fuel (`heapq` pops the
lexicographically smallest tuple each time). -/
def drainFuel : ℕ → List QEntry → List QEntry
  | 0, _ => []
  | Nat.succ n, l =>
    match l with
    | [] => []
    | e :: es =>
      let m := qentryMin e es
      m :: drainFuel n (eraseQ (e :: es) m)

/-- Entries of the queue in the order successive `get` calls pop them. -/
def drainQ (l : List QEntry) : List QEntry := drainFuel l.length l

/-- Index of the first occurrence of `a` in `l`. -/
def idxOfQ : List QEntry → QEntry → ℕ
  | [], _ => 0
  | x :: xs, a => if x = a then 0 else idxOfQ xs a + 1

/-- A sequence of `put` calls (`message`, `priority`), applied in order,
keeping the queue state whether or not an individual insert raises `Full`. -/
def putAll (ops : List (String × ℤ)) (q : PriorityMsgQueue) : PriorityMsgQueue :=
  match ops with
  | [] => q
  | (m, p) :: rest => putAll rest (q.put m p).2

/-! ## audio.queue_audio_message -/

/-- `audio.AUDIO_COOLDOWN = 3.0`. -/
def AUDIO_COOLDOWN : ℚ := 3

/-- `audio.FAMILIAR_FACE_COOLDOWN = 10.0`. -/
def FAMILIAR_FACE_COOLDOWN : ℚ := 10

/-- `audio.queue_audio_message`.  `last` is the module-global
`_last_audio_time` dict (read through `.get(msg_id, 0)`), `now` the
`time.time()` reading.  Returns (returned bool, new `_last_audio_time`,
new queue state). -/
def queue_audio_message (last : String → ℚ) (q : PriorityMsgQueue) (now : ℚ)
    (class_key message : String) (priority : ℤ) (is_familiar_face : Bool) :
    Bool × (String → ℚ) × PriorityMsgQueue :=
  let msg_id := if is_familiar_face then "face_" ++ class_key else class_key
  let cooldown := if is_familiar_face then FAMILIAR_FACE_COOLDOWN else AUDIO_COOLDOWN
  if now - last msg_id < cooldown then
    (false, last, q)
  else if MAX_AUDIO_QUEUE_SIZE ≤ q.entries.length ∧ priority < 2 ∧ is_familiar_face = false then
    (false, last, q)
  else
    match q.put message priority with
    | (true, q1) => (true, updF last msg_id now, q1)
    | (false, q1) => (false, last, q1)

/-- The parameter names accepted by `audio.queue_audio_message`
(`def queue_audio_message(q, class_key, message, priority=1,
is_familiar_face=False)`). -/
def queue_audio_message_param_names : List String :=
  ["q", "class_key", "message", "priority", "is_familiar_face"]

/-- Keyword-argument names passed at the forced-producer call sites:
`main.handle_voice_command` (help/mute/speak/all/less/faces/scan/distance/
save_face/currency use `force=True`; stop and emergency use
`priority=4, force=True`) and every prompt in `voice.voice_command_loop`
(`queue_audio_message(audio_q, "voice", ..., force=True)`). -/
def forced_call_kwarg_names : List String := ["force"]

/-- Keyword-argument names passed at `main.handle_voice_command`'s stop and
emergency branches: `priority=4, force=True`. -/
def critical_call_kwarg_names : List String := ["priority", "force"]

/-- Python call semantics: a call is rejected with `TypeError` ("unexpected
keyword argument") unless every keyword-argument name is a parameter name. -/
def kwargsAccepted (params kwargs : List String) : Bool :=
  kwargs.all (fun k => params.contains k)

/-! ## detection.update_object_history -/

/-- A spatial-grid key `(int(cx // grid_size), int(cy // grid_size),
class_name)`. -/
abbrev Cell : Type := ℤ × ℤ × String

/-- One detection dict as consumed by `update_object_history`: its
`bbox_xyxy` `(x1, y1, x2, y2)` and its `class_name`. -/
structure Det where
  bbox : ℚ × ℚ × ℚ × ℚ
  class_name : String
deriving DecidableEq, Repr

/-- The grid cell of a detection: centre coordinates floor-divided by
`grid_size` (Python `int(cx // grid_size)` is the floor for a positive or
negative quotient). -/
def detCell (grid_size : ℤ) (d : Det) : Cell :=
  let cx := (d.bbox.1 + d.bbox.2.2.1) / 2
  let cy := (d.bbox.2.1 + d.bbox.2.2.2) / 2
  (⌊cx / (grid_size : ℚ)⌋, ⌊cy / (grid_size : ℚ)⌋, d.class_name)

/-- `history.get(cell, 0)` on the dict, represented as an association list
with unique keys. -/
def histGet : List (Cell × ℤ) → Cell → ℤ
  | [], _ => 0
  | p :: t, c => if p.1 = c then p.2 else histGet t c

/-- `history[cell] = v` on the dict. -/
def histSet : List (Cell × ℤ) → Cell → ℤ → List (Cell × ℤ)
  | [], c, v => [(c, v)]
  | p :: t, c, v => if p.1 = c then (c, v) :: t else p :: histSet t c v

/-- The first loop of `update_object_history`: for each detection in order,
increment (or initialize) its cell's counter and append the detection to
`stable` when the updated counter has reached `required_frames`. -/
def uohLoop (grid_size required_frames : ℤ) :
    List Det → List (Cell × ℤ) → List Det → List (Cell × ℤ) × List Det
  | [], h, stable => (h, stable)
  | d :: ds, h, stable =>
    let cell := detCell grid_size d
    let n := histGet h cell + 1
    let h1 := histSet h cell n
    if required_frames ≤ n then uohLoop grid_size required_frames ds h1 (stable ++ [d])
    else uohLoop grid_size required_frames ds h1 stable

/-- The second loop of `update_object_history` (`for key in
list(history.keys())`): keys absent from `current` are decremented and
deleted once the counter is `<= 0`. -/
def agePhase : List (Cell × ℤ) → List Cell → List (Cell × ℤ)
  | [], _ => []
  | (c, v) :: t, cur =>
    if c ∈ cur then (c, v) :: agePhase t cur
    else if v - 1 ≤ 0 then agePhase t cur
    else (c, v - 1) :: agePhase t cur

/-- `detection.update_object_history`: returns the stable detections of this
frame and the updated history. -/
def update_object_history (history : List (Cell × ℤ)) (dets : List Det)
    (grid_size required_frames : ℤ) : List Det × List (Cell × ℤ) :=
  let step1 := uohLoop grid_size required_frames dets history []
  let current := dets.map (detCell grid_size)
  (step1.2, agePhase step1.1 current)

/-- Successive frames fed to `update_object_history`, collecting each
frame's stable output, exactly as `main.live_loop` calls it each iteration. -/
def runFrames (grid_size required_frames : ℤ) :
    List (List Det) → List (Cell × ℤ) → List (List Det) × List (Cell × ℤ)
  | [], h => ([], h)
  | f :: fs, h =>
    let step := update_object_history h f grid_size required_frames
    let rest := runFrames grid_size required_frames fs step.2
    (step.1 :: rest.1, rest.2)

/-! ## main.obstacle_priority, main.distance_cm and the live-loop gate -/

/-- `main.obstacle_priority`: smoothed distance to ordinal urgency. -/
def obstacle_priority (dist_cm : ℚ) : ℤ :=
  if dist_cm < 0 then 0
  else if dist_cm < 40 then 4
  else if dist_cm < 70 then 3
  else if dist_cm < 110 then 2
  else 1

/-- The distance-alert gate in `main.live_loop`: `if d >= 0:` then compute
the median priority and `if p >= 2 and speak_throttle.allow("distance")`
enqueue the obstacle message.  Returns whether the alert is enqueued and the
throttle state (`and` short-circuits, so `allow` only runs when `p >= 2`). -/
def live_loop_distance_alert (d med : ℚ) (t : Throttle) (now : ℚ) : Bool × Throttle :=
  if 0 ≤ d then
    if 2 ≤ obstacle_priority med then t.allow "distance" now
    else (false, t)
  else (false, t)

/-- `main.distance_cm`: the `try` body measures an echo duration `dur` and
returns `max(0.0, min(dur * 34300.0 / 2.0, 500.0))`; any exception inside
the `try` yields `-1.0`.  The GPIO measurement is abstracted as its outcome:
either a raised exception or the measured duration. -/
def distance_cm (measurement : Except Unit ℚ) : ℚ :=
  match measurement with
  | Except.error _ => -1
  | Except.ok dur => max 0 (min (dur * 34300 / 2) 500)

/-! ## utils.calculate_adaptive_inference_size -/

/-- `utils.calculate_adaptive_inference_size` (`0.8` and `1.2` written as
the rationals `4/5` and `6/5`). -/
def calculate_adaptive_inference_size (avg_fps : ℚ) (current_size : ℤ × ℤ)
    (target_fps : ℚ) (step : ℤ) (min_size max_size : ℤ × ℤ) : ℤ × ℤ :=
  let w := current_size.1
  let h := current_size.2
  if avg_fps < target_fps * (4 / 5) then
    (max min_size.1 (w - step), max min_size.2 (h - step))
  else if target_fps * (6 / 5) < avg_fps then
    (min max_size.1 (w + step), min max_size.2 (h + step))
  else (w, h)

/-! ## audio.SpeechEngine -/

/-- `audio.MAX_CONCURRENT_SPEECH = 3`. -/
def MAX_CONCURRENT_SPEECH : ℕ := 3

/-- An espeak subprocess as `SpeechEngine` sees it: its identity (`id(p)`)
and whether `p.poll() is None` (still running). -/
structure PyProc where
  pid : ℕ
  alive : Bool
deriving DecidableEq, Repr

/-- State of `audio.SpeechEngine`: `_procs` and the keys of `_timers` (the
processes that still have an armed watchdog timer). -/
structure SpeechEngine where
  procs : List PyProc
  timers : List ℕ
deriving DecidableEq, Repr

/-- `SpeechEngine._cleanup_procs`: keep the live processes; for each dead
one pop and cancel its watchdog timer. -/
def SpeechEngine.cleanupProcs (s : SpeechEngine) : SpeechEngine :=
  let deadPids := (s.procs.filter (fun p => p.alive = false)).map (fun p => p.pid)
  { procs := s.procs.filter (fun p => p.alive = true),
    timers := s.timers.filter (fun tid => tid ∉ deadPids) }

/-- `SpeechEngine.speak`: reap, then drop the request if
`MAX_CONCURRENT_SPEECH` jobs are still tracked, else spawn (`spawnOk` is
whether `subprocess.Popen` succeeds; `newPid` the new process identity) and
arm its watchdog. -/
def SpeechEngine.speak (s : SpeechEngine) (spawnOk : Bool) (newPid : ℕ) : SpeechEngine :=
  let s1 := s.cleanupProcs
  if MAX_CONCURRENT_SPEECH ≤ s1.procs.length then s1
  else if spawnOk then
    { procs := s1.procs ++ [{ pid := newPid, alive := true }],
      timers := s1.timers ++ [newPid] }
  else s1

/-! ## voice.voice_command_loop -/

/-- Does `needle` occur at the start of `hay`? -/
def startsWithB : List Char → List Char → Bool
  | [], _ => true
  | _ :: _, [] => false
  | a :: as, b :: bs => a == b && startsWithB as bs

/-- Does `needle` occur contiguously anywhere in `hay`? -/
def containsSeq (needle : List Char) : List Char → Bool
  | [] => needle.isEmpty
  | b :: bs => startsWithB needle (b :: bs) || containsSeq needle bs

/-- Python's substring test `needle in hay`. -/
def pyInStr (needle hay : String) : Bool := containsSeq needle.data hay.data

/-- `voice.COMMAND_ALIASES` in dict insertion order (`.items()` iterates in
that order). -/
def COMMAND_ALIASES : List (String × String) :=
  [("help", "help"), ("mute", "mute"), ("speak", "speak"), ("all", "all"),
   ("less", "less"), ("faces", "faces"), ("scan", "scan"),
   ("distance", "distance"), ("save face", "save_face"), ("stop", "stop"),
   ("currency", "currency"), ("emergency", "emergency")]

/-- `voice.CRITICAL_COMMANDS`. -/
def CRITICAL_COMMANDS : List String := ["stop", "emergency"]

/-- `voice._extract_command`: the first alias whose phrase occurs in the
utterance. -/
def _extract_command (text : String) : Option String :=
  (COMMAND_ALIASES.find? (fun pc => pyInStr pc.1 text)).map (fun pc => pc.2)

/-- The `(listening, awaiting)` pair of local variables of
`voice.voice_command_loop`. -/
structure VoiceSession where
  listening : Bool
  awaiting : Option String
deriving DecidableEq, Repr

/-- Result of feeding one finalized utterance to the loop body: either the
next session state plus the commands passed to `cmd_handler`, or a raised
`TypeError` — every prompt in the loop is sent via
`queue_audio_message(audio_q, "voice", ..., force=True)`, and
`audio.queue_audio_message` has no parameter named `force`, so the call
raises and the surrounding `try` terminates the whole voice loop. -/
inductive VoiceStepResult where
  | ok (s : VoiceSession) (handled : List String)
  | typeError
deriving DecidableEq, Repr

/-- The body of `voice.voice_command_loop` for one finalized utterance
`text` (already stripped and lower-cased by the recognizer handling). -/
def voice_command_step (s : VoiceSession) (text : String) : VoiceStepResult :=
  if text = "" then VoiceStepResult.ok s []
  else
    match s.awaiting with
    | some cmd =>
      if text = "yes" ∨ text = "yeah" ∨ text = "yep" then
        VoiceStepResult.ok { listening := false, awaiting := none } [cmd]
      else
        VoiceStepResult.typeError
    | none =>
      if s.listening = false then
        if pyInStr "assistant" text then VoiceStepResult.typeError
        else VoiceStepResult.ok s []
      else
        match _extract_command text with
        | none => VoiceStepResult.typeError
        | some cmd =>
          if CRITICAL_COMMANDS.contains cmd then VoiceStepResult.typeError
          else VoiceStepResult.ok { listening := false, awaiting := none } [cmd]

/-! ## Theorems -/

/-- C1: a cooldown check returns true and records `now` as last-emit iff the
elapsed time since the recorded last emit for the key is at least the
applicable window, and otherwise returns false leaving the last-emit map
unchanged; hence two calls for one key within the window yield
`(true, false)` and calls spaced at least a window apart yield
`(true, true)`.  For the check in `queue_audio_message` the window is
`10.0` for familiar-face keys (prefixed `face_`) and `3.0` otherwise, a
message within the window is rejected without mutation, and an accepted
message records `now` under its key. -/
theorem throttle_allow_cooldown_spec (t : Throttle) (key : String) (now now2 : ℚ)
    (lastA : String → ℚ) (q : PriorityMsgQueue) (ck msg : String) (p : ℤ) (fam : Bool) :
    ((t.allow key now).1 = true ∧ (t.allow key now).2.last = updF t.last key now
        ↔ t.period ≤ now - t.last key) ∧
    ((t.allow key now).1 = false → (t.allow key now).2 = t) ∧
    (t.period ≤ now - t.last key → now2 - now < t.period →
      (t.allow key now).1 = true ∧ (((t.allow key now).2).allow key now2).1 = false) ∧
    (t.period ≤ now - t.last key → t.period ≤ now2 - now →
      (t.allow key now).1 = true ∧ (((t.allow key now).2).allow key now2).1 = true) ∧
    ((fam = true → (if fam then FAMILIAR_FACE_COOLDOWN else AUDIO_COOLDOWN) = 10) ∧
     (fam = false → (if fam then FAMILIAR_FACE_COOLDOWN else AUDIO_COOLDOWN) = 3)) ∧
    (now - lastA (if fam then "face_" ++ ck else ck)
        < (if fam then FAMILIAR_FACE_COOLDOWN else AUDIO_COOLDOWN) →
      queue_audio_message lastA q now ck msg p fam = (false, lastA, q)) ∧
    ((queue_audio_message lastA q now ck msg p fam).1 = true →
      (if fam then FAMILIAR_FACE_COOLDOWN else AUDIO_COOLDOWN)
          ≤ now - lastA (if fam then "face_" ++ ck else ck) ∧
      (queue_audio_message lastA q now ck msg p fam).2.1
          = updF lastA (if fam then "face_" ++ ck else ck) now) := by
  have hq1 : now - lastA (if fam then "face_" ++ ck else ck)
        < (if fam then FAMILIAR_FACE_COOLDOWN else AUDIO_COOLDOWN) →
      queue_audio_message lastA q now ck msg p fam = (false, lastA, q) := by
    intro hlt
    unfold queue_audio_message
    rw [if_pos hlt]
  have hq2 : (queue_audio_message lastA q now ck msg p fam).1 = true →
      (if fam then FAMILIAR_FACE_COOLDOWN else AUDIO_COOLDOWN)
          ≤ now - lastA (if fam then "face_" ++ ck else ck) ∧
      (queue_audio_message lastA q now ck msg p fam).2.1
          = updF lastA (if fam then "face_" ++ ck else ck) now := by
    intro htrue
    unfold queue_audio_message at htrue ⊢
    by_cases h1 : now - lastA (if fam then "face_" ++ ck else ck)
        < (if fam then FAMILIAR_FACE_COOLDOWN else AUDIO_COOLDOWN)
    · rw [if_pos h1] at htrue
      simp at htrue
    · rw [if_neg h1] at htrue ⊢
      refine ⟨not_lt.mp h1, ?_⟩
      by_cases h2 : MAX_AUDIO_QUEUE_SIZE ≤ q.entries.length ∧ p < 2 ∧ fam = false
      · rw [if_pos h2] at htrue
        simp at htrue
      · rw [if_neg h2] at htrue ⊢
        rcases hput : q.put msg p with ⟨b, q1⟩
        rw [hput] at htrue
        cases b
        · exact Bool.noConfusion htrue
        · rfl
  by_cases h : t.period ≤ now - t.last key
  · have e1 : t.allow key now = (true, { t with last := updF t.last key now }) := by
      unfold Throttle.allow
      rw [if_pos h]
    have e2 : updF t.last key now key = now := by simp [updF]
    refine ⟨?_, ?_, ?_, ?_,
      ⟨fun hf => by simp [hf, FAMILIAR_FACE_COOLDOWN],
       fun hf => by simp [hf, AUDIO_COOLDOWN]⟩, hq1, hq2⟩
    · rw [e1]
      exact ⟨fun _ => h, fun _ => ⟨rfl, rfl⟩⟩
    · rw [e1]
      intro hfalse
      simp at hfalse
    · intro _ hwin
      rw [e1]
      refine ⟨rfl, ?_⟩
      show (Throttle.allow { t with last := updF t.last key now } key now2).1 = false
      unfold Throttle.allow
      rw [show ({ period := t.period, last := updF t.last key now } : Throttle).last key
        = now from e2]
      split_ifs with hc
      · exact absurd hc (not_le.mpr hwin)
      · rfl
    · intro _ hfar
      rw [e1]
      refine ⟨rfl, ?_⟩
      show (Throttle.allow { t with last := updF t.last key now } key now2).1 = true
      unfold Throttle.allow
      rw [show ({ period := t.period, last := updF t.last key now } : Throttle).last key
        = now from e2]
      split_ifs with hc
      · rfl
      · exact absurd hfar hc
  · have e1 : t.allow key now = (false, t) := by
      unfold Throttle.allow
      rw [if_neg h]
    refine ⟨?_, ?_, ?_, ?_,
      ⟨fun hf => by simp [hf, FAMILIAR_FACE_COOLDOWN],
       fun hf => by simp [hf, AUDIO_COOLDOWN]⟩, hq1, hq2⟩
    · rw [e1]
      exact ⟨fun hc => absurd hc.1 (by simp), fun hr => absurd hr h⟩
    · rw [e1]
      intro _
      rfl
    · intro h1
      exact absurd h1 h
    · intro h1
      exact absurd h1 h

/-- C1 witness: with period `3` and a fresh key, a call at `t=10` is allowed,
a second call at `t=11` is rejected, a second call at `t=13` is allowed; and
a non-face message whose category last emitted `1` second ago is rejected
without mutation. -/
theorem throttle_allow_cooldown_spec_witness :
    (Throttle.allow ⟨3, fun _ => 0⟩ "obstacle" 10).1 = true ∧
    ((Throttle.allow ⟨3, fun _ => 0⟩ "obstacle" 10).2.allow "obstacle" 11).1 = false ∧
    ((Throttle.allow ⟨3, fun _ => 0⟩ "obstacle" 10).2.allow "obstacle" 13).1 = true ∧
    queue_audio_message (fun _ => 9) PriorityMsgQueue.empty 10 "person" "person" 1 false
      = (false, (fun _ => 9), PriorityMsgQueue.empty) := by
  have h1 := throttle_allow_cooldown_spec ⟨3, fun _ => 0⟩ "obstacle" 10 11
    (fun _ => 9) PriorityMsgQueue.empty "person" "person" 1 false
  have h2 := throttle_allow_cooldown_spec ⟨3, fun _ => 0⟩ "obstacle" 10 13
    (fun _ => 9) PriorityMsgQueue.empty "person" "person" 1 false
  refine ⟨(h1.2.2.1 (by norm_num) (by norm_num)).1, (h1.2.2.1 (by norm_num) (by norm_num)).2,
    (h2.2.2.2.1 (by norm_num) (by norm_num)).2,
    h1.2.2.2.2.2.1 (by norm_num [AUDIO_COOLDOWN, FAMILIAR_FACE_COOLDOWN])⟩

/-- C2: `queue_audio_message` accepts no keyword named `force`, so the
"forced" call sites (`force=True`, and `priority=4, force=True` for stop and
emergency) raise `TypeError` instead of bypassing the checks; the function
itself unconditionally rejects any message inside its cooldown window and
drops a low-priority (< 2) non-familiar-face message when the queue holds at
least 20 entries. -/
theorem queue_audio_message_force_bug
    (last : String → ℚ) (q : PriorityMsgQueue) (now : ℚ) (ck msg : String)
    (p : ℤ) (fam : Bool) :
    kwargsAccepted queue_audio_message_param_names forced_call_kwarg_names = false ∧
    kwargsAccepted queue_audio_message_param_names critical_call_kwarg_names = false ∧
    queue_audio_message_param_names.contains "force" = false ∧
    (now - last (if fam then "face_" ++ ck else ck)
        < (if fam then FAMILIAR_FACE_COOLDOWN else AUDIO_COOLDOWN) →
      queue_audio_message last q now ck msg p fam = (false, last, q)) ∧
    (MAX_AUDIO_QUEUE_SIZE ≤ q.entries.length → p < 2 → fam = false →
      (queue_audio_message last q now ck msg p fam).1 = false) := by
  refine ⟨by decide, by decide, by decide, ?_, ?_⟩
  · intro hlt
    unfold queue_audio_message
    rw [if_pos hlt]
  · intro hful hp hfam
    unfold queue_audio_message
    by_cases h1 : now - last (if fam then "face_" ++ ck else ck)
        < (if fam then FAMILIAR_FACE_COOLDOWN else AUDIO_COOLDOWN)
    · rw [if_pos h1]
    · rw [if_neg h1, if_pos ⟨hful, hp, hfam⟩]

/-- C2 witness: a message one second after its category's last emit is
rejected, and a priority-1 non-face message is dropped when the queue holds
20 entries. -/
theorem queue_audio_message_force_bug_witness :
    queue_audio_message (fun _ => 0) PriorityMsgQueue.empty 1 "person" "person" 1 false
      = (false, (fun _ => 0), PriorityMsgQueue.empty) ∧
    (queue_audio_message (fun _ => 0) ⟨List.replicate 20 ((0 : ℤ), (0 : ℕ), "x"), 20, 20⟩
      100 "person" "person" 1 false).1 = false := by
  refine ⟨(queue_audio_message_force_bug (fun _ => 0) PriorityMsgQueue.empty 1
      "person" "person" 1 false).2.2.2.1
        (by norm_num [AUDIO_COOLDOWN, FAMILIAR_FACE_COOLDOWN]),
    (queue_audio_message_force_bug (fun _ => 0)
      ⟨List.replicate 20 ((0 : ℤ), (0 : ℕ), "x"), 20, 20⟩
      100 "person" "person" 1 false).2.2.2.2 (by decide) (by decide) rfl⟩

/-- C4 counterexample: `get` on an empty queue does not return a value to
the caller — the expired timeout re-raises `queue.Empty`
(`Except.error` in this embedding). -/
theorem priorityMsgQueue_get_empty_raises :
    PriorityMsgQueue.get PriorityMsgQueue.empty = Except.error () ∧
    (PriorityMsgQueue.get PriorityMsgQueue.empty).isOk = false := ⟨rfl, rfl⟩

/-- C4 amended: `get` with a timeout on an empty queue raises (propagates)
`queue.Empty` on expiry, and the consuming loop `audio_thread_func` catches
the exception and treats it as an empty cycle. -/
theorem priorityMsgQueue_get_empty_spec (q : PriorityMsgQueue) (h : q.entries = []) :
    q.get = Except.error () ∧ audio_thread_step q = (none, q) := by
  have hg : q.get = Except.error () := by
    unfold PriorityMsgQueue.get
    rw [h]
  refine ⟨hg, ?_⟩
  unfold audio_thread_step
  rw [hg]

/-- C4 amended witness: the fresh queue is empty and behaves as stated. -/
theorem priorityMsgQueue_get_empty_spec_witness :
    PriorityMsgQueue.get PriorityMsgQueue.empty = Except.error () ∧
    audio_thread_step PriorityMsgQueue.empty = (none, PriorityMsgQueue.empty) :=
  priorityMsgQueue_get_empty_spec PriorityMsgQueue.empty rfl

/-- C6: `obstacle_priority` maps a smoothed distance below `0` to level `0`,
`[0, 40)` to `4`, `[40, 70)` to `3`, `[70, 110)` to `2` and `[110, ∞)` to
`1`; and the live loop enqueues a distance alert only when the computed
level is at least `2`. -/
theorem obstacle_priority_spec (d med : ℚ) (t : Throttle) (now : ℚ) :
    (d < 0 → obstacle_priority d = 0) ∧
    (0 ≤ d → d < 40 → obstacle_priority d = 4) ∧
    (40 ≤ d → d < 70 → obstacle_priority d = 3) ∧
    (70 ≤ d → d < 110 → obstacle_priority d = 2) ∧
    (110 ≤ d → obstacle_priority d = 1) ∧
    ((live_loop_distance_alert d med t now).1 = true → 2 ≤ obstacle_priority med) := by
  refine ⟨fun h => ?_, fun h0 h1 => ?_, fun h0 h1 => ?_, fun h0 h1 => ?_,
    fun h0 => ?_, fun hq => ?_⟩
  · unfold obstacle_priority
    rw [if_pos h]
  · unfold obstacle_priority
    rw [if_neg (by linarith), if_pos h1]
  · unfold obstacle_priority
    rw [if_neg (by linarith), if_neg (by linarith), if_pos h1]
  · unfold obstacle_priority
    rw [if_neg (by linarith), if_neg (by linarith), if_neg (by linarith), if_pos h1]
  · unfold obstacle_priority
    rw [if_neg (by linarith), if_neg (by linarith), if_neg (by linarith),
      if_neg (by linarith)]
  · unfold live_loop_distance_alert at hq
    by_cases h0 : (0 : ℚ) ≤ d
    · rw [if_pos h0] at hq
      by_cases h2 : (2 : ℤ) ≤ obstacle_priority med
      · exact h2
      · rw [if_neg h2] at hq
        simp at hq
    · rw [if_neg h0] at hq
      simp at hq

/-- C6 witness: the spec's example distances, and that a queued alert at
distance `35` implies level at least `2`. -/
theorem obstacle_priority_spec_witness :
    obstacle_priority (-1) = 0 ∧ obstacle_priority 35 = 4 ∧ obstacle_priority 65 = 3 ∧
    obstacle_priority 100 = 2 ∧ obstacle_priority 200 = 1 := by
  refine ⟨(obstacle_priority_spec (-1) 0 ⟨3, fun _ => 0⟩ 0).1 (by norm_num),
    (obstacle_priority_spec 35 0 ⟨3, fun _ => 0⟩ 0).2.1 (by norm_num) (by norm_num),
    (obstacle_priority_spec 65 0 ⟨3, fun _ => 0⟩ 0).2.2.1 (by norm_num) (by norm_num),
    (obstacle_priority_spec 100 0 ⟨3, fun _ => 0⟩ 0).2.2.2.1 (by norm_num) (by norm_num),
    (obstacle_priority_spec 200 0 ⟨3, fun _ => 0⟩ 0).2.2.2.2.1 (by norm_num)⟩

/-- C7 counterexample: the claim quantifies over every `step`, but with
`step = -64`, a low FPS and the size already at the maximum `(640, 640)`
within bounds `[(256, 256), (640, 640)]`, the result `(704, 704)` leaves the
claimed bounds. -/
theorem calculate_adaptive_inference_size_cex :
    ((256 : ℤ) ≤ 640 ∧ (640 : ℤ) ≤ 640) ∧
    calculate_adaptive_inference_size 0 (640, 640) 12 (-64) (256, 256) (640, 640)
      = (704, 704) ∧
    ¬ ((704 : ℤ) ≤ 640) := by
  refine ⟨by decide, ?_, by decide⟩
  unfold calculate_adaptive_inference_size
  rw [if_pos (by norm_num)]
  decide

/-- C7 amended: `calculate_adaptive_inference_size` shrinks each dimension
by `step` floored at `min_size` when `avg_fps < 0.8 * target_fps`, grows by
`step` capped at `max_size` when the first test fails and
`avg_fps > 1.2 * target_fps`, and is the identity otherwise; and for
nonnegative `step`, a size within `[min_size, max_size]` stays within
bounds, and the minimum (under low FPS) and maximum (under high FPS) sizes
are fixed points. -/
theorem calculate_adaptive_inference_size_spec
    (avg_fps target_fps : ℚ) (cur mn mx : ℤ × ℤ) (step : ℤ) :
    (avg_fps < target_fps * (4 / 5) →
      calculate_adaptive_inference_size avg_fps cur target_fps step mn mx
        = (max mn.1 (cur.1 - step), max mn.2 (cur.2 - step))) ∧
    (¬ avg_fps < target_fps * (4 / 5) → target_fps * (6 / 5) < avg_fps →
      calculate_adaptive_inference_size avg_fps cur target_fps step mn mx
        = (min mx.1 (cur.1 + step), min mx.2 (cur.2 + step))) ∧
    (target_fps * (4 / 5) ≤ avg_fps → avg_fps ≤ target_fps * (6 / 5) →
      calculate_adaptive_inference_size avg_fps cur target_fps step mn mx = cur) ∧
    (0 ≤ step → mn.1 ≤ cur.1 → cur.1 ≤ mx.1 → mn.2 ≤ cur.2 → cur.2 ≤ mx.2 →
      mn.1 ≤ (calculate_adaptive_inference_size avg_fps cur target_fps step mn mx).1 ∧
      (calculate_adaptive_inference_size avg_fps cur target_fps step mn mx).1 ≤ mx.1 ∧
      mn.2 ≤ (calculate_adaptive_inference_size avg_fps cur target_fps step mn mx).2 ∧
      (calculate_adaptive_inference_size avg_fps cur target_fps step mn mx).2 ≤ mx.2) ∧
    (0 ≤ step → avg_fps < target_fps * (4 / 5) →
      calculate_adaptive_inference_size avg_fps mn target_fps step mn mx = mn) ∧
    (0 ≤ step → ¬ avg_fps < target_fps * (4 / 5) → target_fps * (6 / 5) < avg_fps →
      calculate_adaptive_inference_size avg_fps mx target_fps step mn mx = mx) := by
  simp only [calculate_adaptive_inference_size]
  refine ⟨fun h1 => ?_, fun h1 h2 => ?_, fun h1 h2 => ?_, fun hs b1 b2 b3 b4 => ?_,
    fun hs h1 => ?_, fun hs h1 h2 => ?_⟩
  · rw [if_pos h1]
  · rw [if_neg h1, if_pos h2]
  · rw [if_neg (not_lt.mpr h1), if_neg (not_lt.mpr h2)]
  · split_ifs with c1 c2
    · exact ⟨le_max_left _ _, max_le (by omega) (by omega),
        le_max_left _ _, max_le (by omega) (by omega)⟩
    · exact ⟨le_min (by omega) (by omega), min_le_left _ _,
        le_min (by omega) (by omega), min_le_left _ _⟩
    · exact ⟨b1, b2, b3, b4⟩
  · rw [if_pos h1]
    have e1 : max mn.1 (mn.1 - step) = mn.1 := by omega
    have e2 : max mn.2 (mn.2 - step) = mn.2 := by omega
    rw [e1, e2]
  · rw [if_neg h1, if_pos h2]
    have e1 : min mx.1 (mx.1 + step) = mx.1 := by omega
    have e2 : min mx.2 (mx.2 + step) = mx.2 := by omega
    rw [e1, e2]

/-- C7 amended witness: the spec's scenario — at `(640, 640)` with
`avg_fps = 8 < 0.8 * 12` the size shrinks to `(576, 576)` and stays within
bounds, and `(640, 640)` is a fixed point under `avg_fps = 25`. -/
theorem calculate_adaptive_inference_size_spec_witness :
    calculate_adaptive_inference_size 8 (640, 640) 12 64 (256, 256) (640, 640)
      = (576, 576) ∧
    (256 : ℤ) ≤ 576 ∧ (576 : ℤ) ≤ 640 ∧
    calculate_adaptive_inference_size 25 (640, 640) 12 64 (256, 256) (640, 640)
      = (640, 640) := by
  have h1 := calculate_adaptive_inference_size_spec 8 12 (640, 640) (256, 256)
    (640, 640) 64
  have h2 := calculate_adaptive_inference_size_spec 25 12 (640, 640) (256, 256)
    (640, 640) 64
  refine ⟨?_, by decide, by decide,
    h2.2.2.2.2.2 (by decide) (by norm_num) (by norm_num)⟩
  rw [h1.1 (by norm_num)]
  decide

/-- C8: `SpeechEngine.speak` first reaps dead jobs (their watchdog timers
cancelled), and keeps at most `MAX_CONCURRENT_SPEECH = 3` tracked jobs: a
call arriving with the cap reached and all three jobs alive returns the
state unchanged, creating no job. -/
theorem speechEngine_speak_spec (s : SpeechEngine) (spawnOk : Bool) (newPid : ℕ) :
    ((s.cleanupProcs).procs = s.procs.filter (fun p => p.alive = true)) ∧
    (∀ p ∈ s.procs, p.alive = false → p.pid ∉ (s.cleanupProcs).timers) ∧
    (s.procs.length ≤ MAX_CONCURRENT_SPEECH →
      (s.speak spawnOk newPid).procs.length ≤ MAX_CONCURRENT_SPEECH) ∧
    ((∀ p ∈ s.procs, p.alive = true) → s.procs.length = MAX_CONCURRENT_SPEECH →
      s.speak spawnOk newPid = s) := by
  refine ⟨rfl, ?_, ?_, ?_⟩
  · intro p hp hdead htm
    unfold SpeechEngine.cleanupProcs at htm
    simp only [List.mem_filter] at htm
    have : p.pid ∈ (s.procs.filter (fun p => p.alive = false)).map (fun p => p.pid) := by
      exact List.mem_map_of_mem _ (List.mem_filter.mpr ⟨hp, by simp [hdead]⟩)
    rcases htm with ⟨-, hdec⟩
    simp only [decide_eq_true_eq] at hdec
    exact hdec this
  · intro hlen
    have hle : (s.cleanupProcs).procs.length ≤ s.procs.length := by
      simp only [SpeechEngine.cleanupProcs]
      simpa using List.length_filter_le _ _
    simp only [SpeechEngine.speak]
    split_ifs with c1 c2
    · omega
    · simp only [List.length_append, List.length_singleton]
      omega
    · omega
  · intro hall hlen
    have hfil : s.procs.filter (fun p => p.alive = true) = s.procs := by
      rw [List.filter_eq_self]
      intro a ha
      simp [hall a ha]
    have hdead : s.procs.filter (fun p => p.alive = false) = [] := by
      rw [List.filter_eq_nil_iff]
      intro a ha
      simp [hall a ha]
    have hcl : s.cleanupProcs = s := by
      simp only [SpeechEngine.cleanupProcs]
      rw [hfil, hdead]
      simp
    simp only [SpeechEngine.speak]
    rw [hcl, if_pos (le_of_eq hlen.symm)]

/-- C8 witness: with three live jobs tracked, a fourth `speak` call leaves
the engine unchanged. -/
theorem speechEngine_speak_spec_witness :
    SpeechEngine.speak ⟨[⟨1, true⟩, ⟨2, true⟩, ⟨3, true⟩], [1, 2, 3]⟩ true 4
      = ⟨[⟨1, true⟩, ⟨2, true⟩, ⟨3, true⟩], [1, 2, 3]⟩ ∧
    (SpeechEngine.speak ⟨[⟨1, true⟩, ⟨2, true⟩, ⟨3, true⟩], [1, 2, 3]⟩ true 4).procs.length
      ≤ MAX_CONCURRENT_SPEECH := by
  have h := speechEngine_speak_spec ⟨[⟨1, true⟩, ⟨2, true⟩, ⟨3, true⟩], [1, 2, 3]⟩ true 4
  exact ⟨h.2.2.2 (by decide) (by decide), h.2.2.1 (by decide)⟩

/-- C9: the voice session's transitions crash instead of prompting — every
prompt is sent with `force=True`, a keyword `queue_audio_message` does not
accept, so the wake transition, the not-understood prompt and the
confirm/cancel prompts raise `TypeError` (terminating the voice loop), while
the promptless paths (non-critical dispatch, affirmative confirmation)
invoke the handler as described. -/
theorem voice_command_loop_force_typeError :
    voice_command_step ⟨false, none⟩ "hey assistant" = VoiceStepResult.typeError ∧
    voice_command_step ⟨true, none⟩ "please stop" = VoiceStepResult.typeError ∧
    voice_command_step ⟨true, none⟩ "gibberish" = VoiceStepResult.typeError ∧
    voice_command_step ⟨true, some "stop"⟩ "no" = VoiceStepResult.typeError ∧
    voice_command_step ⟨true, some "stop"⟩ "yes"
      = VoiceStepResult.ok ⟨false, none⟩ ["stop"] ∧
    voice_command_step ⟨true, none⟩ "mute please"
      = VoiceStepResult.ok ⟨false, none⟩ ["mute"] ∧
    kwargsAccepted queue_audio_message_param_names forced_call_kwarg_names = false := by
  decide

/-- C10: `distance_cm` returns `-1.0` exactly on an internal exception and
otherwise a value clamped to `[0.0, 500.0]`; being a total function of the
measurement outcome, no exception escapes to the caller. -/
theorem distance_cm_spec (m : Except Unit ℚ) :
    distance_cm (Except.error ()) = -1 ∧
    (distance_cm m = -1 ∨ (0 ≤ distance_cm m ∧ distance_cm m ≤ 500)) := by
  refine ⟨rfl, ?_⟩
  cases m with
  | error e => exact Or.inl rfl
  | ok dur =>
    refine Or.inr ⟨le_max_left 0 _, max_le (by norm_num) (min_le_right _ _)⟩

/-! ### Heap-order lemmas for C3 -/

theorem qentryLe_refl (a : QEntry) : qentryLe a a :=
  Or.inr ⟨rfl, Or.inr ⟨rfl, le_refl _⟩⟩

theorem qentryLe_total (a b : QEntry) : qentryLe a b ∨ qentryLe b a := by
  unfold qentryLe
  rcases lt_trichotomy a.1 b.1 with h | h | h
  · exact Or.inl (Or.inl h)
  · rcases lt_trichotomy a.2.1 b.2.1 with h2 | h2 | h2
    · exact Or.inl (Or.inr ⟨h, Or.inl h2⟩)
    · rcases le_total a.2.2 b.2.2 with h3 | h3
      · exact Or.inl (Or.inr ⟨h, Or.inr ⟨h2, h3⟩⟩)
      · exact Or.inr (Or.inr ⟨h.symm, Or.inr ⟨h2.symm, h3⟩⟩)
    · exact Or.inr (Or.inr ⟨h.symm, Or.inl h2⟩)
  · exact Or.inr (Or.inl h)

theorem qentryLe_trans {a b c : QEntry} (h1 : qentryLe a b) (h2 : qentryLe b c) :
    qentryLe a c := by
  unfold qentryLe at h1 h2 ⊢
  rcases h1 with h1 | ⟨e1, h1⟩
  · rcases h2 with h2 | ⟨e2, h2⟩
    · exact Or.inl (by omega)
    · exact Or.inl (by omega)
  · rcases h2 with h2 | ⟨e2, h2⟩
    · exact Or.inl (by omega)
    · refine Or.inr ⟨e1.trans e2, ?_⟩
      rcases h1 with h1 | ⟨f1, h1⟩
      · rcases h2 with h2 | ⟨f2, h2⟩
        · exact Or.inl (by omega)
        · exact Or.inl (by omega)
      · rcases h2 with h2 | ⟨f2, h2⟩
        · exact Or.inl (by omega)
        · exact Or.inr ⟨f1.trans f2, le_trans h1 h2⟩

theorem qentryLe_antisymm {a b : QEntry} (h1 : qentryLe a b) (h2 : qentryLe b a) :
    a = b := by
  unfold qentryLe at h1 h2
  rcases h1 with h1 | ⟨e1, h1⟩
  · rcases h2 with h2 | ⟨e2, h2⟩
    · exact absurd h2 (by omega)
    · exact absurd e2 (by omega)
  · rcases h2 with h2 | ⟨e2, h2⟩
    · exact absurd h2 (by omega)
    · rcases h1 with h1 | ⟨f1, h1⟩
      · rcases h2 with h2 | ⟨f2, h2⟩
        · exact absurd h2 (by omega)
        · exact absurd f2 (by omega)
      · rcases h2 with h2 | ⟨f2, h2⟩
        · exact absurd h2 (by omega)
        · exact Prod.ext_iff.mpr ⟨e1, Prod.ext_iff.mpr ⟨f1, le_antisymm h1 h2⟩⟩

theorem qentryMin_mem (e : QEntry) (l : List QEntry) : qentryMin e l ∈ e :: l := by
  induction l generalizing e with
  | nil => simp [qentryMin]
  | cons f fs ih =>
    show qentryMin (if qentryLe f e then f else e) fs ∈ e :: f :: fs
    by_cases hfe : qentryLe f e
    · rw [if_pos hfe]
      exact List.mem_cons_of_mem e (ih f)
    · rw [if_neg hfe]
      rcases List.mem_cons.mp (ih e) with h1 | h1
      · exact List.mem_cons.mpr (Or.inl h1)
      · exact List.mem_cons_of_mem e (List.mem_cons_of_mem f h1)

theorem qentryMin_le (e : QEntry) (l : List QEntry) :
    ∀ x ∈ e :: l, qentryLe (qentryMin e l) x := by
  induction l generalizing e with
  | nil =>
    intro x hx
    rw [List.mem_singleton] at hx
    subst hx
    exact qentryLe_refl x
  | cons f fs ih =>
    intro x hx
    show qentryLe (qentryMin (if qentryLe f e then f else e) fs) x
    rcases List.mem_cons.mp hx with h1 | h1
    · subst h1
      by_cases hfe : qentryLe f x
      · rw [if_pos hfe]
        exact qentryLe_trans (ih f f (List.mem_cons_self f fs)) hfe
      · rw [if_neg hfe]
        exact ih x x (List.mem_cons_self x fs)
    · rcases List.mem_cons.mp h1 with h2 | h2
      · subst h2
        by_cases hfe : qentryLe x e
        · rw [if_pos hfe]
          exact ih x x (List.mem_cons_self x fs)
        · rw [if_neg hfe]
          have hef : qentryLe e x := (qentryLe_total x e).resolve_left hfe
          exact qentryLe_trans (ih e e (List.mem_cons_self e fs)) hef
      · by_cases hfe : qentryLe f e
        · rw [if_pos hfe]
          exact ih f x (List.mem_cons_of_mem f h2)
        · rw [if_neg hfe]
          exact ih e x (List.mem_cons_of_mem e h2)

theorem eraseQ_length {l : List QEntry} {a : QEntry} (h : a ∈ l) :
    (eraseQ l a).length + 1 = l.length := by
  induction l with
  | nil => cases h
  | cons x xs ih =>
    show (if x = a then xs else x :: eraseQ xs a).length + 1 = (x :: xs).length
    by_cases hx : x = a
    · rw [if_pos hx, List.length_cons]
    · rw [if_neg hx]
      have hmem : a ∈ xs := by
        rcases List.mem_cons.mp h with h1 | h1
        · exact absurd h1.symm hx
        · exact h1
      have := ih hmem
      simp only [List.length_cons]
      omega

theorem eraseQ_perm {l : List QEntry} {a : QEntry} (h : a ∈ l) :
    l.Perm (a :: eraseQ l a) := by
  induction l with
  | nil => cases h
  | cons x xs ih =>
    by_cases hx : x = a
    · subst hx
      simp [eraseQ]
    · have hmem : a ∈ xs := by
        rcases List.mem_cons.mp h with h1 | h1
        · exact absurd h1.symm hx
        · exact h1
      show List.Perm (x :: xs) (a :: (if x = a then xs else x :: eraseQ xs a))
      rw [if_neg hx]
      exact (List.Perm.cons x (ih hmem)).trans (List.Perm.swap a x (eraseQ xs a))

theorem eraseQ_mem {l : List QEntry} {a x : QEntry} (h : x ∈ eraseQ l a) : x ∈ l := by
  induction l with
  | nil => cases h
  | cons y ys ih =>
    by_cases hy : y = a
    · simp only [eraseQ, if_pos hy] at h
      exact List.mem_cons_of_mem y h
    · simp only [eraseQ, if_neg hy] at h
      rcases List.mem_cons.mp h with h1 | h1
      · exact h1 ▸ List.mem_cons_self y ys
      · exact List.mem_cons_of_mem y (ih h1)

theorem drainFuel_perm : ∀ (n : ℕ) (l : List QEntry), l.length ≤ n →
    (drainFuel n l).Perm l := by
  intro n
  induction n with
  | zero =>
    intro l hl
    have he : l = [] := List.length_eq_zero.mp (Nat.le_zero.mp hl)
    subst he
    simp [drainFuel]
  | succ n ih =>
    intro l hl
    cases l with
    | nil => simp [drainFuel]
    | cons e es =>
      show (qentryMin e es :: drainFuel n (eraseQ (e :: es) (qentryMin e es))).Perm (e :: es)
      have hm : qentryMin e es ∈ e :: es := qentryMin_mem e es
      have hlen : (eraseQ (e :: es) (qentryMin e es)).length + 1 = (e :: es).length :=
        eraseQ_length hm
      have hle2 : (eraseQ (e :: es) (qentryMin e es)).length ≤ n := by
        simp only [List.length_cons] at hl hlen
        omega
      exact ((ih _ hle2).cons (qentryMin e es)).trans (eraseQ_perm hm).symm

theorem drainFuel_sorted : ∀ (n : ℕ) (l : List QEntry), l.length ≤ n →
    (drainFuel n l).Pairwise qentryLe := by
  intro n
  induction n with
  | zero =>
    intro l hl
    simp [drainFuel]
  | succ n ih =>
    intro l hl
    cases l with
    | nil => simp [drainFuel]
    | cons e es =>
      show (qentryMin e es :: drainFuel n (eraseQ (e :: es) (qentryMin e es))).Pairwise qentryLe
      have hm : qentryMin e es ∈ e :: es := qentryMin_mem e es
      have hlen : (eraseQ (e :: es) (qentryMin e es)).length + 1 = (e :: es).length :=
        eraseQ_length hm
      have hle2 : (eraseQ (e :: es) (qentryMin e es)).length ≤ n := by
        simp only [List.length_cons] at hl hlen
        omega
      refine List.Pairwise.cons ?_ (ih _ hle2)
      intro x hx
      have hx2 : x ∈ eraseQ (e :: es) (qentryMin e es) := (drainFuel_perm n _ hle2).subset hx
      exact qentryMin_le e es x (eraseQ_mem hx2)

theorem sorted_idxOfQ_lt : ∀ (l : List QEntry), l.Pairwise qentryLe →
    ∀ u v : QEntry, u ∈ l → v ∈ l → qentryLe u v → u ≠ v →
    idxOfQ l u < idxOfQ l v := by
  intro l
  induction l with
  | nil =>
    intro _ u v hu
    cases hu
  | cons x xs ih =>
    intro hp u v hu hv hle hne
    have hp1 : ∀ y ∈ xs, qentryLe x y := (List.pairwise_cons.mp hp).1
    have hp2 : xs.Pairwise qentryLe := (List.pairwise_cons.mp hp).2
    show (if x = u then 0 else idxOfQ xs u + 1) < (if x = v then 0 else idxOfQ xs v + 1)
    by_cases hxu : x = u
    · have hxv : x ≠ v := fun hh => hne (hxu.symm.trans hh)
      rw [if_pos hxu, if_neg hxv]
      omega
    · by_cases hxv : x = v
      · exfalso
        have hu2 : u ∈ xs := by
          rcases List.mem_cons.mp hu with h1 | h1
          · exact absurd h1.symm hxu
          · exact h1
        have hvu : qentryLe v u := hxv ▸ hp1 u hu2
        exact hne (qentryLe_antisymm hle hvu)
      · have hu2 : u ∈ xs := by
          rcases List.mem_cons.mp hu with h1 | h1
          · exact absurd h1.symm hxu
          · exact h1
        have hv2 : v ∈ xs := by
          rcases List.mem_cons.mp hv with h1 | h1
          · exact absurd h1.symm hxv
          · exact h1
        rw [if_neg hxu, if_neg hxv]
        have := ih hp2 u v hu2 hv2 hle hne
        omega

theorem enumFrom_get?_eq {α : Type} : ∀ (l : List α) (n m : ℕ),
    (l.enumFrom n).get? m = (l.get? m).map (fun a => (n + m, a)) := by
  intro l
  induction l with
  | nil => intro n m; simp
  | cons a as ih =>
    intro n m
    cases m with
    | zero => simp [List.enumFrom]
    | succ m =>
      show (List.enumFrom (n + 1) as).get? m = (as.get? m).map (fun a => (n + (m + 1), a))
      rw [ih (n + 1) m]
      have : ∀ k, n + 1 + k = n + (k + 1) := by omega
      simp [this]

theorem putAll_entries : ∀ (ops : List (String × ℤ)) (q : PriorityMsgQueue),
    q.entries.length + ops.length ≤ q.maxsize →
    (putAll ops q).entries
      = q.entries ++ (ops.enumFrom q.counter).map (fun x => (-(x.2.2), x.1, x.2.1)) := by
  intro ops
  induction ops with
  | nil =>
    intro q h
    simp [putAll]
  | cons op rest ih =>
    intro q h
    rcases op with ⟨m, p⟩
    show (putAll rest ((q.put m p).2)).entries = _
    have hlt : ¬ q.maxsize ≤ q.entries.length := by
      simp only [List.length_cons] at h
      omega
    have hput : (q.put m p).2
        = { q with entries := q.entries ++ [(-p, q.counter, m)], counter := q.counter + 1 } := by
      unfold PriorityMsgQueue.put
      rw [if_neg hlt]
    rw [hput]
    rw [ih _ (by
      simp only [List.length_append, List.length_cons, List.length_singleton,
        List.length_nil] at h ⊢
      omega)]
    simp [List.enumFrom, List.append_assoc]

/-- C3: each `get` pops the lexicographically smallest
`(-priority, counter, message)` entry (so `drainQ` lists the messages in
delivery order), and for any sequence of `put` calls that fits the queue,
an entry put with strictly higher priority is delivered before one with
lower priority, and of two entries with equal priority the one put earlier
is delivered earlier. -/
theorem priorityMsgQueue_priority_fifo
    (ops : List (String × ℤ)) (hlen : ops.length ≤ MAX_AUDIO_QUEUE_SIZE)
    (i j : ℕ) (hi : i < ops.length) (hj : j < ops.length)
    (horder : (ops.get ⟨j, hj⟩).2 < (ops.get ⟨i, hi⟩).2
        ∨ ((ops.get ⟨i, hi⟩).2 = (ops.get ⟨j, hj⟩).2 ∧ i < j)) :
    (∀ (qq : PriorityMsgQueue) (e : QEntry) (es : List QEntry), qq.entries = e :: es →
      qq.get = Except.ok ((qentryMin e es).2.2,
        { qq with entries := eraseQ (e :: es) (qentryMin e es) }) ∧
      drainQ (e :: es) = qentryMin e es :: drainQ (eraseQ (e :: es) (qentryMin e es))) ∧
    idxOfQ (drainQ (putAll ops PriorityMsgQueue.empty).entries)
        (-(ops.get ⟨i, hi⟩).2, i, (ops.get ⟨i, hi⟩).1)
      < idxOfQ (drainQ (putAll ops PriorityMsgQueue.empty).entries)
        (-(ops.get ⟨j, hj⟩).2, j, (ops.get ⟨j, hj⟩).1) := by
  constructor
  · intro qq e es hq
    constructor
    · unfold PriorityMsgQueue.get
      rw [hq]
    · have hm : qentryMin e es ∈ e :: es := qentryMin_mem e es
      have hlen2 : (eraseQ (e :: es) (qentryMin e es)).length + 1 = (e :: es).length :=
        eraseQ_length hm
      unfold drainQ
      rw [show (eraseQ (e :: es) (qentryMin e es)).length = es.length from by
        simp only [List.length_cons] at hlen2
        omega]
      rfl
  · have hent : (putAll ops PriorityMsgQueue.empty).entries
        = (ops.enumFrom 0).map (fun x => (-(x.2.2), x.1, x.2.1)) := by
      have h0 := putAll_entries ops PriorityMsgQueue.empty (by
        simpa [PriorityMsgQueue.empty, MAX_AUDIO_QUEUE_SIZE] using hlen)
      simpa [PriorityMsgQueue.empty] using h0
    have hgi : (putAll ops PriorityMsgQueue.empty).entries.get? i
        = some (-(ops.get ⟨i, hi⟩).2, i, (ops.get ⟨i, hi⟩).1) := by
      rw [hent, List.get?_map, enumFrom_get?_eq, List.get?_eq_get hi]
      simp
    have hgj : (putAll ops PriorityMsgQueue.empty).entries.get? j
        = some (-(ops.get ⟨j, hj⟩).2, j, (ops.get ⟨j, hj⟩).1) := by
      rw [hent, List.get?_map, enumFrom_get?_eq, List.get?_eq_get hj]
      simp
    have memi : (-(ops.get ⟨i, hi⟩).2, i, (ops.get ⟨i, hi⟩).1)
        ∈ (putAll ops PriorityMsgQueue.empty).entries := List.get?_mem hgi
    have memj : (-(ops.get ⟨j, hj⟩).2, j, (ops.get ⟨j, hj⟩).1)
        ∈ (putAll ops PriorityMsgQueue.empty).entries := List.get?_mem hgj
    have hle : qentryLe (-(ops.get ⟨i, hi⟩).2, i, (ops.get ⟨i, hi⟩).1)
        (-(ops.get ⟨j, hj⟩).2, j, (ops.get ⟨j, hj⟩).1) := by
      rcases horder with h | ⟨h, hij⟩
      · exact Or.inl (show -(ops.get ⟨i, hi⟩).2 < -(ops.get ⟨j, hj⟩).2 by omega)
      · exact Or.inr ⟨show -(ops.get ⟨i, hi⟩).2 = -(ops.get ⟨j, hj⟩).2 by omega,
          Or.inl hij⟩
    have hne : ((-(ops.get ⟨i, hi⟩).2, i, (ops.get ⟨i, hi⟩).1) : QEntry)
        ≠ (-(ops.get ⟨j, hj⟩).2, j, (ops.get ⟨j, hj⟩).1) := by
      intro heq
      have hcounter : i = j := congrArg (fun x : QEntry => x.2.1) heq
      subst hcounter
      rcases horder with h | ⟨h, hij⟩
      · exact lt_irrefl _ h
      · exact lt_irrefl i hij
    have hsorted := drainFuel_sorted
      ((putAll ops PriorityMsgQueue.empty).entries).length
      ((putAll ops PriorityMsgQueue.empty).entries) (le_refl _)
    have hperm := drainFuel_perm
      ((putAll ops PriorityMsgQueue.empty).entries).length
      ((putAll ops PriorityMsgQueue.empty).entries) (le_refl _)
    exact sorted_idxOfQ_lt _ hsorted _ _ (hperm.mem_iff.mpr memi)
      (hperm.mem_iff.mpr memj) hle hne

/-- C3 witness: after `put("a",1); put("b",2); put("c",1)` the delivery
order is `b`, `a`, `c` — the priority-2 message first, then the two
priority-1 messages in insertion order. -/
theorem priorityMsgQueue_priority_fifo_witness :
    drainQ (putAll [("a", 1), ("b", 2), ("c", 1)] PriorityMsgQueue.empty).entries
      = [(-2, 1, "b"), (-1, 0, "a"), (-1, 2, "c")] ∧
    idxOfQ (drainQ (putAll [("a", 1), ("b", 2), ("c", 1)] PriorityMsgQueue.empty).entries)
        (-1, 0, "a")
      < idxOfQ (drainQ (putAll [("a", 1), ("b", 2), ("c", 1)] PriorityMsgQueue.empty).entries)
        (-1, 2, "c") := by
  refine ⟨rfl, ?_⟩
  exact (priorityMsgQueue_priority_fifo [("a", 1), ("b", 2), ("c", 1)] (by decide)
    0 2 (by decide) (by decide) (Or.inr ⟨rfl, by decide⟩)).2

/-! ### History-map lemmas for C5 -/

theorem histGet_histSet_self (h : List (Cell × ℤ)) (c : Cell) (v : ℤ) :
    histGet (histSet h c v) c = v := by
  induction h with
  | nil => simp [histSet, histGet]
  | cons p t ih =>
    by_cases hp : p.1 = c
    · simp [histSet, hp, histGet]
    · simp [histSet, hp, histGet, ih]

theorem histGet_histSet_ne (h : List (Cell × ℤ)) (c c2 : Cell) (v : ℤ) (hne : c2 ≠ c) :
    histGet (histSet h c v) c2 = histGet h c2 := by
  induction h with
  | nil =>
    simp only [histSet, histGet]
    rw [if_neg (fun hh => hne hh.symm)]
  | cons p t ih =>
    by_cases hp : p.1 = c
    · simp only [histSet, if_pos hp, histGet]
      rw [if_neg (fun hh => hne hh.symm), if_neg (by rw [hp]; exact fun hh => hne hh.symm)]
    · simp only [histSet, if_neg hp, histGet, ih]

theorem histSet_keys_mem (h : List (Cell × ℤ)) (c c2 : Cell) (v : ℤ) :
    (c2 ∈ (histSet h c v).map Prod.fst ↔ c2 ∈ h.map Prod.fst ∨ c2 = c) := by
  induction h with
  | nil => simp [histSet]
  | cons p t ih =>
    by_cases hp : p.1 = c
    · subst hp
      have hrw : histSet (p :: t) p.1 v = (p.1, v) :: t := by simp [histSet]
      rw [hrw]
      simp only [List.map_cons, List.mem_cons]
      tauto
    · simp only [histSet, if_neg hp, List.map_cons, List.mem_cons, ih]
      tauto

theorem histSet_keys_nodup (h : List (Cell × ℤ)) (c : Cell) (v : ℤ)
    (hnd : (h.map Prod.fst).Nodup) : ((histSet h c v).map Prod.fst).Nodup := by
  induction h with
  | nil => simp [histSet]
  | cons p t ih =>
    simp only [List.map_cons, List.nodup_cons] at hnd
    by_cases hp : p.1 = c
    · simp only [histSet, if_pos hp, List.map_cons, List.nodup_cons]
      exact ⟨hp ▸ hnd.1, hnd.2⟩
    · simp only [histSet, if_neg hp, List.map_cons, List.nodup_cons]
      refine ⟨?_, ih hnd.2⟩
      rw [histSet_keys_mem]
      rintro (h1 | h1)
      · exact hnd.1 h1
      · exact hp h1

theorem uohLoop_spec (g req : ℤ) (ds : List Det) :
    ∀ (h : List (Cell × ℤ)) (stable : List Det), (ds.map (detCell g)).Nodup →
    (∀ c, histGet (uohLoop g req ds h stable).1 c
        = if c ∈ ds.map (detCell g) then histGet h c + 1 else histGet h c) ∧
    ((uohLoop g req ds h stable).2
        = stable ++ ds.filter (fun d => decide (req ≤ histGet h (detCell g d) + 1))) ∧
    (∀ c, c ∈ (uohLoop g req ds h stable).1.map Prod.fst
        ↔ c ∈ h.map Prod.fst ∨ c ∈ ds.map (detCell g)) ∧
    ((h.map Prod.fst).Nodup → ((uohLoop g req ds h stable).1.map Prod.fst).Nodup) := by
  induction ds with
  | nil =>
    intro h stable hnd
    refine ⟨fun c => by simp [uohLoop], by simp [uohLoop], fun c => by simp [uohLoop],
      fun hh => by simpa [uohLoop] using hh⟩
  | cons d ds ih =>
    intro h stable hnd
    simp only [List.map_cons, List.nodup_cons] at hnd
    have hc0 : detCell g d ∉ ds.map (detCell g) := hnd.1
    have hnd1 : (ds.map (detCell g)).Nodup := hnd.2
    have hbody : uohLoop g req (d :: ds) h stable
        = if req ≤ histGet h (detCell g d) + 1 then
            uohLoop g req ds (histSet h (detCell g d) (histGet h (detCell g d) + 1))
              (stable ++ [d])
          else
            uohLoop g req ds (histSet h (detCell g d) (histGet h (detCell g d) + 1))
              stable := by
      simp only [uohLoop]
    have hfun : ∀ c, histGet (histSet h (detCell g d) (histGet h (detCell g d) + 1)) c
        = if c = detCell g d then histGet h (detCell g d) + 1 else histGet h c := by
      intro c
      by_cases hc : c = detCell g d
      · rw [if_pos hc, hc, histGet_histSet_self]
      · rw [if_neg hc, histGet_histSet_ne _ _ _ _ hc]
    have hfilter : ds.filter (fun d2 => decide (req ≤
          histGet (histSet h (detCell g d) (histGet h (detCell g d) + 1)) (detCell g d2) + 1))
        = ds.filter (fun d2 => decide (req ≤ histGet h (detCell g d2) + 1)) := by
      apply List.filter_congr
      intro d2 hd2
      have hne2 : detCell g d2 ≠ detCell g d := by
        intro heq
        exact hc0 (heq ▸ List.mem_map_of_mem (detCell g) hd2)
      rw [histGet_histSet_ne _ _ _ _ hne2]
    have ihh := ih (histSet h (detCell g d) (histGet h (detCell g d) + 1))
    refine ⟨?_, ?_, ?_, ?_⟩
    · intro c
      by_cases hreq : req ≤ histGet h (detCell g d) + 1
      · rw [hbody, if_pos hreq]
        rw [(ihh (stable ++ [d]) hnd1).1 c]
        by_cases hc : c = detCell g d
        · have hnotin : c ∉ ds.map (detCell g) := hc ▸ hc0
          rw [if_neg hnotin, hfun, if_pos hc, hc]
          simp [List.map_cons, List.mem_cons, hc]
        · rw [hfun, if_neg hc]
          by_cases hin : c ∈ ds.map (detCell g)
          · rw [if_pos hin, if_pos (by simp [List.mem_cons, hin])]
          · rw [if_neg hin, if_neg (by simp [List.mem_cons, hin, hc])]
      · rw [hbody, if_neg hreq]
        rw [(ihh stable hnd1).1 c]
        by_cases hc : c = detCell g d
        · have hnotin : c ∉ ds.map (detCell g) := hc ▸ hc0
          rw [if_neg hnotin, hfun, if_pos hc, hc]
          simp [List.map_cons, List.mem_cons, hc]
        · rw [hfun, if_neg hc]
          by_cases hin : c ∈ ds.map (detCell g)
          · rw [if_pos hin, if_pos (by simp [List.mem_cons, hin])]
          · rw [if_neg hin, if_neg (by simp [List.mem_cons, hin, hc])]
    · by_cases hreq : req ≤ histGet h (detCell g d) + 1
      · rw [hbody, if_pos hreq, (ihh (stable ++ [d]) hnd1).2.1, hfilter]
        rw [show (d :: ds).filter (fun d2 => decide (req ≤ histGet h (detCell g d2) + 1))
            = d :: ds.filter (fun d2 => decide (req ≤ histGet h (detCell g d2) + 1)) from by
          simp [List.filter_cons, hreq]]
        simp [List.append_assoc]
      · rw [hbody, if_neg hreq, (ihh stable hnd1).2.1, hfilter]
        rw [show (d :: ds).filter (fun d2 => decide (req ≤ histGet h (detCell g d2) + 1))
            = ds.filter (fun d2 => decide (req ≤ histGet h (detCell g d2) + 1)) from by
          simp [List.filter_cons, hreq]]
    · intro c
      have hkeys : ∀ st2, c ∈ (uohLoop g req ds
            (histSet h (detCell g d) (histGet h (detCell g d) + 1)) st2).1.map Prod.fst
          ↔ c ∈ h.map Prod.fst ∨ c = detCell g d ∨ c ∈ ds.map (detCell g) := by
        intro st2
        rw [(ihh st2 hnd1).2.2.1 c, histSet_keys_mem]
        tauto
      by_cases hreq : req ≤ histGet h (detCell g d) + 1
      · rw [hbody, if_pos hreq, hkeys]
        simp [List.mem_cons]
      · rw [hbody, if_neg hreq, hkeys]
        simp [List.mem_cons]
    · intro hh
      have hnd2 := histSet_keys_nodup h (detCell g d) (histGet h (detCell g d) + 1) hh
      by_cases hreq : req ≤ histGet h (detCell g d) + 1
      · rw [hbody, if_pos hreq]
        exact (ihh (stable ++ [d]) hnd1).2.2.2 hnd2
      · rw [hbody, if_neg hreq]
        exact (ihh stable hnd1).2.2.2 hnd2

theorem agePhase_keys_sub (hl : List (Cell × ℤ)) (cur : List Cell) (c : Cell)
    (h : c ∈ (agePhase hl cur).map Prod.fst) : c ∈ hl.map Prod.fst := by
  induction hl with
  | nil => simpa [agePhase] using h
  | cons p t ih =>
    rcases p with ⟨c0, v0⟩
    simp only [agePhase] at h
    by_cases hcur : c0 ∈ cur
    · rw [if_pos hcur] at h
      simp only [List.map_cons, List.mem_cons] at h ⊢
      rcases h with h1 | h1
      · exact Or.inl h1
      · exact Or.inr (ih h1)
    · rw [if_neg hcur] at h
      by_cases hv : v0 - 1 ≤ 0
      · rw [if_pos hv] at h
        simp only [List.map_cons, List.mem_cons]
        exact Or.inr (ih h)
      · rw [if_neg hv] at h
        simp only [List.map_cons, List.mem_cons] at h ⊢
        rcases h with h1 | h1
        · exact Or.inl h1
        · exact Or.inr (ih h1)

theorem agePhase_mem_get (hl : List (Cell × ℤ)) (cur : List Cell) (c : Cell)
    (hc : c ∈ cur) : histGet (agePhase hl cur) c = histGet hl c := by
  induction hl with
  | nil => simp [agePhase]
  | cons p t ih =>
    rcases p with ⟨c0, v0⟩
    simp only [agePhase]
    by_cases hcur : c0 ∈ cur
    · rw [if_pos hcur]
      simp only [histGet]
      by_cases he : c0 = c
      · rw [if_pos he, if_pos he]
      · rw [if_neg he, if_neg he, ih]
    · rw [if_neg hcur]
      have hne : c0 ≠ c := fun hh => hcur (hh ▸ hc)
      by_cases hv : v0 - 1 ≤ 0
      · rw [if_pos hv, ih]
        simp only [histGet]
        rw [if_neg hne]
      · rw [if_neg hv]
        simp only [histGet]
        rw [if_neg hne, if_neg hne, ih]

theorem agePhase_absent (hl : List (Cell × ℤ)) (cur : List Cell) (c : Cell)
    (hnd : (hl.map Prod.fst).Nodup) (hc : c ∉ cur) (hmem : c ∈ hl.map Prod.fst) :
    (histGet hl c - 1 ≤ 0 → c ∉ (agePhase hl cur).map Prod.fst) ∧
    (0 < histGet hl c - 1 → histGet (agePhase hl cur) c = histGet hl c - 1) := by
  induction hl with
  | nil => cases hmem
  | cons p t ih =>
    rcases p with ⟨c0, v0⟩
    simp only [List.map_cons, List.nodup_cons] at hnd
    by_cases he : c0 = c
    · subst he
      have hget : histGet ((c0, v0) :: t) c0 = v0 := by
        simp [histGet]
      rw [hget]
      simp only [agePhase, if_neg hc]
      constructor
      · intro hv
        rw [if_pos hv]
        intro hin
        exact hnd.1 (agePhase_keys_sub t cur c0 hin)
      · intro hv
        rw [if_neg (by omega)]
        simp [histGet]
    · have hmem2 : c ∈ t.map Prod.fst := by
        simp only [List.map_cons, List.mem_cons] at hmem
        rcases hmem with h1 | h1
        · exact absurd h1.symm he
        · exact h1
      have hget : histGet ((c0, v0) :: t) c = histGet t c := by
        simp only [histGet]
        rw [if_neg he]
      rw [hget]
      have ih2 := ih hnd.2 hmem2
      simp only [agePhase]
      by_cases hcur : c0 ∈ cur
      · rw [if_pos hcur]
        constructor
        · intro hv hin
          simp only [List.map_cons, List.mem_cons] at hin
          rcases hin with h1 | h1
          · exact he h1.symm
          · exact ih2.1 hv h1
        · intro hv
          simp only [histGet]
          rw [if_neg he]
          exact ih2.2 hv
      · rw [if_neg hcur]
        by_cases hv0 : v0 - 1 ≤ 0
        · rw [if_pos hv0]
          exact ih2
        · rw [if_neg hv0]
          constructor
          · intro hv hin
            simp only [List.map_cons, List.mem_cons] at hin
            rcases hin with h1 | h1
            · exact he h1.symm
            · exact ih2.1 hv h1
          · intro hv
            simp only [histGet]
            rw [if_neg he]
            exact ih2.2 hv

/-- C5: with one detection per cell this frame, `update_object_history`
increments (or initializes to 1) the counter of every cell present, includes
a detection in the stable output exactly when its cell's counter after the
increment reaches `required_frames`, decrements every tracked cell absent
this frame (removing it when the counter falls to zero or below), and with
`required_frames = 3` a detection seen in the same cell on frames 1, 2, 3
first becomes stable on frame 3 while a one-frame absence only decays the
counter (3 to 1 after two hits and a miss) without removing it. -/
theorem update_object_history_spec (history : List (Cell × ℤ)) (dets : List Det)
    (g req : ℤ) (hg : g ≠ 0)
    (hnd : (history.map Prod.fst).Nodup)
    (hcells : (dets.map (detCell g)).Nodup) :
    (∀ d ∈ dets,
      histGet (update_object_history history dets g req).2 (detCell g d)
        = histGet history (detCell g d) + 1) ∧
    ((update_object_history history dets g req).1
        = dets.filter (fun d => decide (req ≤ histGet history (detCell g d) + 1))) ∧
    (∀ d ∈ dets, (d ∈ (update_object_history history dets g req).1
        ↔ req ≤ histGet history (detCell g d) + 1)) ∧
    (∀ c, c ∈ history.map Prod.fst → c ∉ dets.map (detCell g) →
      (histGet history c - 1 ≤ 0 →
        c ∉ ((update_object_history history dets g req).2).map Prod.fst) ∧
      (0 < histGet history c - 1 →
        histGet (update_object_history history dets g req).2 c
          = histGet history c - 1)) ∧
    (∀ d : Det,
      (runFrames g 3 [[d], [d], [d]] []).1 = [[], [], [d]] ∧
      (runFrames g 3 [[d], [d], [d]] []).2 = [(detCell g d, 3)] ∧
      (runFrames g 3 [[d], [d], []] []).2 = [(detCell g d, 1)]) := by
  have hu := uohLoop_spec g req dets history [] hcells
  have hstep : update_object_history history dets g req
      = ((uohLoop g req dets history []).2,
         agePhase (uohLoop g req dets history []).1 (dets.map (detCell g))) := by
    simp only [update_object_history]
  have hfl : (uohLoop g req dets history []).2
      = dets.filter (fun d2 => decide (req ≤ histGet history (detCell g d2) + 1)) := by
    rw [hu.2.1]
    simp
  refine ⟨?_, ?_, ?_, ?_, ?_⟩
  · intro d hd
    rw [hstep]
    have hcur : detCell g d ∈ dets.map (detCell g) := List.mem_map_of_mem _ hd
    show histGet (agePhase (uohLoop g req dets history []).1 (dets.map (detCell g)))
        (detCell g d) = _
    rw [agePhase_mem_get _ _ _ hcur, hu.1 (detCell g d), if_pos hcur]
  · rw [hstep]
    exact hfl
  · intro d hd
    rw [hstep]
    show d ∈ (uohLoop g req dets history []).2 ↔ _
    rw [hfl]
    simp [List.mem_filter, hd]
  · intro c hcmem hcnot
    rw [hstep]
    have hgc : histGet (uohLoop g req dets history []).1 c = histGet history c := by
      rw [hu.1 c, if_neg hcnot]
    have hkm : c ∈ (uohLoop g req dets history []).1.map Prod.fst :=
      (hu.2.2.1 c).mpr (Or.inl hcmem)
    have hknd : ((uohLoop g req dets history []).1.map Prod.fst).Nodup := hu.2.2.2 hnd
    have hage := agePhase_absent (uohLoop g req dets history []).1
      (dets.map (detCell g)) c hknd hcnot hkm
    rw [← hgc]
    exact hage
  · intro d
    refine ⟨?_, ?_, ?_⟩ <;>
      simp [runFrames, update_object_history, uohLoop, histGet, histSet, agePhase]

/-- C5 witness: a knife detection centred at `(5, 5)` on grid 50, present on
three consecutive frames from an empty history, is reported stable exactly
from frame 3. -/
theorem update_object_history_spec_witness :
    (runFrames 50 3 [[⟨(0, 0, 10, 10), "knife"⟩], [⟨(0, 0, 10, 10), "knife"⟩],
        [⟨(0, 0, 10, 10), "knife"⟩]] []).1
      = [[], [], [⟨(0, 0, 10, 10), "knife"⟩]] := by
  exact ((update_object_history_spec [] [⟨(0, 0, 10, 10), "knife"⟩] 50 3 (by decide)
    (by simp) (by simp)).2.2.2.2 ⟨(0, 0, 10, 10), "knife"⟩).1

/-- C10 witness: a successful `10ms` echo measurement yields a value in
`[0, 500]`, and a raised exception yields `-1`. -/
theorem distance_cm_spec_witness :
    distance_cm (Except.error ()) = -1 ∧
    (distance_cm (Except.ok (1 / 100)) = -1 ∨
      (0 ≤ distance_cm (Except.ok (1 / 100)) ∧ distance_cm (Except.ok (1 / 100)) ≤ 500)) :=
  distance_cm_spec (Except.ok (1 / 100))
